import Mathlib

/-!
Verification development for the embeddings-processor service (src/app.py).

The service lists per-user metadata blobs from one storage container, computes
an embedding vector for each via a remote API, and writes an embedding record
to a second container.  All external collaborators (Azure blob storage, the
Azure OpenAI embeddings API, Python json parsing) are modelled as oracles in
an environment structure; the embeddings container itself is modelled as an
explicit store threaded through the orchestrators.  A Python exception is
modelled as the error case of an Except value.
-/

namespace EmbProc

/-- Scalar JSON values as produced by Python json parsing: strings, integers,
booleans and null.  The spec restricts metadata values to scalars. -/
inductive JValue where
  | str (s : String)
  | int (n : Int)
  | bool (b : Bool)
  | null
deriving DecidableEq, Repr

/-- Python str() applied to a json-decoded scalar value. -/
def pyStr : JValue → String
  | JValue.str s => s
  | JValue.int n => toString n
  | JValue.bool true => "True"
  | JValue.bool false => "False"
  | JValue.null => "None"

/-- A parsed Metadata Record: a Python dict, i.e. a key-value list in
insertion order with unique keys. -/
abbrev Metadata := List (String × JValue)

/-- Python dict.get with a default value. -/
def dict_get (metadata : Metadata) (key : String) (dflt : JValue) : JValue :=
  (List.lookup key metadata).getD dflt

/-- An embedding vector: an opaque sequence of numeric values returned by the
remote model and carried through unchanged. -/
abbrev Vec := List Rat

/-- The Embedding Record written to the target container, mirroring the
embeddings_data dict built in upload_embeddings (src/app.py lines 72-76). -/
structure EmbRecord where
  file_name : String
  embeddings : Vec
  file_path : JValue
deriving DecidableEq, Repr

/-- Contents of a blob container: key-value pairs of blob name and record. -/
abbrev Store := List (String × EmbRecord)

/-- Read the record stored at a key (the first binding for that key). -/
def storeGet : Store → String → Option EmbRecord
  | [], _ => none
  | p :: st, key => if p.1 = key then some p.2 else storeGet st key

/-- Blob upload with overwrite=True: replace the record at the key when
present, otherwise add a new blob at the key. -/
def storePut : Store → String → EmbRecord → Store
  | [], key, rec => [(key, rec)]
  | p :: st, key, rec =>
      if p.1 = key then (key, rec) :: st else p :: storePut st key rec

/-- Oracles for the external collaborators of src/app.py.  Each field models
one remote call; the error case of an Except result models the call raising
a Python exception. -/
structure Env where
  /-- container_client.list_blobs with the given name prefix
  (src/app.py line 29); yields the listed blob names. -/
  list_blobs : String → Except String (List String)
  /-- read_blob_content: download_blob().readall().decode (line 36). -/
  read_blob_content : String → Except String String
  /-- json.loads on the downloaded text (lines 103 and 162). -/
  json_loads : String → Except String Metadata
  /-- The data list of the remote embeddings response for a given input text
  (lines 53-56); each element holds one vector. -/
  embedData : String → Except String (List Vec)
  /-- blob_service_client.create_container (lines 91 and 153). -/
  create_container : Except String Unit
  /-- Fault injection for blob_client.upload_blob at a given key (line 79):
  some message means the upload raises, none means it succeeds. -/
  upload_fault : String → Option String

/-- Mutable world state threaded through a processing run: whether the
embeddings container exists, and its contents. -/
structure PState where
  embContainerPresent : Bool
  embStore : Store
deriving DecidableEq, Repr

/-- fetch_user_blobs (src/app.py lines 24-29): list all metadata blobs whose
name starts with the user-scoped prefix. -/
def fetch_user_blobs (env : Env) (user_id : String) : Except String (List String) :=
  env.list_blobs (user_id ++ "/")

/-- compute_embeddings_with_azure_openai (src/app.py lines 38-64): join the
string representations of the metadata values with single spaces, send that
text to the remote embeddings model, and return the first element of the
response data (data[0] raises IndexError on an empty list). -/
def compute_embeddings_with_azure_openai (env : Env) (metadata : Metadata) :
    Except String Vec := do
  let text := String.intercalate " " (metadata.map fun kv => pyStr kv.2)
  let data ← env.embedData text
  match data with
  | [] => Except.error "IndexError: list index out of range"
  | v :: _ => Except.ok v

/-- The text the embedding call receives, from line 43 of src/app.py:
a single-space join of str(value) over the metadata values in order. -/
def flatten_metadata_text (metadata : Metadata) : String :=
  String.intercalate " " (metadata.map fun kv => pyStr kv.2)

/-- upload_embeddings (src/app.py lines 66-79): build the embeddings_data
record and upload it with overwrite=True.  Both call sites pass the same blob
name as the client key and as file_name, so the storage key is file_name
here.  The fault argument is the upload oracle outcome at that key. -/
def upload_embeddings (st : Store) (fault : Option String) (file_name : String)
    (embeddings : Vec) (file_path : JValue) : Except String Store :=
  let embeddings_data : EmbRecord :=
    { file_name := file_name, embeddings := embeddings, file_path := file_path }
  match fault with
  | some e => Except.error e
  | none => Except.ok (storePut st file_name embeddings_data)

/-- The per-item try body shared by the batch loop (src/app.py lines 101-113)
and the single-item path (lines 160-172): read the blob, parse it, take
file_path with default "unknown_path", compute the embedding, upload. -/
def tryProcessBlob (env : Env) (st : Store) (blob_name : String) :
    Except String Store := do
  let metadata_content ← env.read_blob_content blob_name
  let metadata ← env.json_loads metadata_content
  let file_path := dict_get metadata "file_path" (JValue.str "unknown_path")
  let embeddings ← compute_embeddings_with_azure_openai env metadata
  upload_embeddings st (env.upload_fault blob_name) blob_name embeddings file_path

/-- Derived per-item outcome: the Embedding Record an item produces when every
step succeeds, or the message of the first exception.  Related to
tryProcessBlob by tryProcessBlob_eq below. -/
def processItem (env : Env) (blob_name : String) : Except String EmbRecord := do
  let metadata_content ← env.read_blob_content blob_name
  let metadata ← env.json_loads metadata_content
  let file_path := dict_get metadata "file_path" (JValue.str "unknown_path")
  let embeddings ← compute_embeddings_with_azure_openai env metadata
  match env.upload_fault blob_name with
  | some e => Except.error e
  | none =>
      Except.ok { file_name := blob_name, embeddings := embeddings,
                  file_path := file_path }

/-- Batch summary (src/app.py lines 119-122). -/
structure BatchResult where
  processed_files : List String
  failed_files : List (String × String)
deriving DecidableEq, Repr

/-- The for loop of process_user_metadata_to_embeddings (src/app.py lines
99-117): each blob is processed inside a try; on success its name goes to
processed_files, on any exception an entry with the blob name and the error
message goes to failed_files, and the loop continues. -/
def processBlobs (env : Env) : List String → Store → BatchResult × Store
  | [], st => ({ processed_files := [], failed_files := [] }, st)
  | blob :: blobs, st =>
      match tryProcessBlob env st blob with
      | Except.ok st' =>
          let rest := processBlobs env blobs st'
          ({ rest.1 with processed_files := blob :: rest.1.processed_files },
           rest.2)
      | Except.error e =>
          let rest := processBlobs env blobs st
          ({ rest.1 with failed_files := (blob, e) :: rest.1.failed_files },
           rest.2)

/-- Container ensure step (src/app.py lines 89-91 and 151-153): if the
embeddings container does not exist, call create_container; an exception from
the create call propagates. -/
def ensure_embeddings_container (env : Env) (st : PState) : Except String PState :=
  if st.embContainerPresent then Except.ok st
  else
    match env.create_container with
    | Except.ok _ => Except.ok { st with embContainerPresent := true }
    | Except.error e => Except.error e

/-- process_user_metadata_to_embeddings (src/app.py lines 81-122): ensure the
target container, list the user blobs, run the per-item loop, return the
summary.  An Except error models the Python function raising. -/
def process_user_metadata_to_embeddings (env : Env) (user_id : String)
    (st : PState) : Except String (BatchResult × PState) := do
  let st ← ensure_embeddings_container env st
  let blobs ← fetch_user_blobs env user_id
  let res := processBlobs env blobs st.embStore
  Except.ok (res.1, { st with embStore := res.2 })

/-- Python str.startswith: whether the second string is a prefix of the
first, expressed on the character lists so that it evaluates. -/
def py_startswith (s pre : String) : Bool :=
  pre.data.isPrefixOf s.data

/-- Key normalization in the single-item path (src/app.py lines 156-158). -/
def normalizeKey (user_id blob_name : String) : String :=
  if py_startswith blob_name (user_id ++ "/") then blob_name
  else user_id ++ "/" ++ blob_name

/-- Outcome dicts returned by the single-item path
(src/app.py lines 174-183). -/
inductive SingleOutcome where
  | success (blob_name : String)
  | error (blob_name : String) (message : String)
deriving DecidableEq, Repr

/-- The blob_name field carried by a single-item outcome. -/
def outcomeKey : SingleOutcome → String
  | SingleOutcome.success k => k
  | SingleOutcome.error k _ => k

/-- process_single_metadata_to_embedding (src/app.py lines 142-183): ensure
the target container (outside the try, so its exceptions propagate), then in
a try: normalize the key, run the shared read-parse-embed-upload sequence,
and return a success or error outcome dict. -/
def process_single_metadata_to_embedding (env : Env) (user_id blob_name : String)
    (st : PState) : Except String (SingleOutcome × PState) := do
  let st ← ensure_embeddings_container env st
  let blob_name := normalizeKey user_id blob_name
  match tryProcessBlob env st.embStore blob_name with
  | Except.ok store' =>
      Except.ok (SingleOutcome.success blob_name, { st with embStore := store' })
  | Except.error e =>
      Except.ok (SingleOutcome.error blob_name e, st)

/-- HTTP reply of the batch endpoint, carrying the response body fields
(src/app.py lines 133, 137, 139). -/
inductive HttpReply where
  | badRequest (error : String)
  | okReply (message : String) (result : BatchResult)
  | serverError (error : String)
deriving DecidableEq, Repr

/-- HTTP status code of a batch endpoint reply. -/
def statusOf : HttpReply → Nat
  | HttpReply.badRequest _ => 400
  | HttpReply.okReply _ _ => 200
  | HttpReply.serverError _ => 500

/-- process_embeddings (src/app.py lines 124-139): take user_id from the JSON
body; if it is absent or empty (Python falsy), answer 400 without touching
storage; otherwise run the batch orchestrator, answering 200 on a normal
return and 500 if it raises.  The body is modelled as the string-valued
key-value pairs of the parsed JSON object. -/
def process_embeddings (env : Env) (data : List (String × String))
    (st : PState) : HttpReply × PState :=
  match List.lookup "user_id" data with
  | none => (HttpReply.badRequest "Missing user_id in request", st)
  | some user_id =>
      if user_id = "" then (HttpReply.badRequest "Missing user_id in request", st)
      else
        match process_user_metadata_to_embeddings env user_id st with
        | Except.ok (result, st') =>
            (HttpReply.okReply "Processing completed" result, st')
        | Except.error e => (HttpReply.serverError e, st)

/-- View arguments Flask passes when dispatching
POST /process_single_embedding: the URL rule (src/app.py line 142) declares
no path parameters, so no view arguments are supplied. -/
def single_route_view_args : List (String × String) := []

/-- Flask dispatch of POST /process_single_embedding.  The bound view
function (src/app.py line 143) requires the two positional parameters
user_id and blob_name, but the URL rule supplies none and the view never
reads the request body, so the call raises TypeError before the view body
runs; the request body plays no role. -/
def dispatch_process_single_embedding (env : Env)
    (_reqBody : List (String × String)) (st : PState) :
    Except String (SingleOutcome × PState) :=
  match List.lookup "user_id" single_route_view_args,
        List.lookup "blob_name" single_route_view_args with
  | some user_id, some blob_name =>
      process_single_metadata_to_embedding env user_id blob_name st
  | _, _ =>
      Except.error
        "TypeError: process_single_metadata_to_embedding missing 2 required positional arguments"

/-- Status code Flask produces for the value of a dispatched view: an
unhandled exception becomes a 500 Internal Server Error reply, a returned
dict is serialized with status 200. -/
def flaskStatus {α : Type} : Except String α → Nat
  | Except.error _ => 500
  | Except.ok _ => 200

/-! ## Except and store lemmas -/

@[simp] theorem error_bind {ε α β : Type} (e : ε) (f : α → Except ε β) :
    (Except.error e : Except ε α) >>= f = Except.error e := rfl

@[simp] theorem ok_bind {ε α β : Type} (a : α) (f : α → Except ε β) :
    (Except.ok a : Except ε α) >>= f = f a := rfl

theorem storeGet_storePut_self (st : Store) (key : String) (rec : EmbRecord) :
    storeGet (storePut st key rec) key = some rec := by
  induction st with
  | nil => simp [storePut, storeGet]
  | cons p st ih =>
      by_cases h : p.1 = key
      · simp [storePut, h, storeGet]
      · simp [storePut, h, storeGet, ih]

theorem storeGet_storePut_ne (st : Store) (key key' : String) (rec : EmbRecord)
    (h : key ≠ key') : storeGet (storePut st key' rec) key = storeGet st key := by
  induction st with
  | nil => simp [storePut, storeGet, Ne.symm h]
  | cons p st ih =>
      by_cases hp : p.1 = key'
      · simp [storePut, hp, storeGet, Ne.symm h, ih]
      · simp [storePut, hp, storeGet, ih]

theorem storePut_of_storeGet (st : Store) (key : String) (rec : EmbRecord)
    (h : storeGet st key = some rec) : storePut st key rec = st := by
  induction st with
  | nil => simp [storeGet] at h
  | cons p st ih =>
      by_cases hp : p.1 = key
      · obtain ⟨k, v⟩ := p
        simp only at hp
        subst hp
        simp [storeGet] at h
        simp [storePut, h]
      · simp [storeGet, hp] at h
        simp [storePut, hp, ih h]

/-! ## Bridge between the store-level step and the record-level outcome -/

theorem tryProcessBlob_eq (env : Env) (st : Store) (blob : String) :
    tryProcessBlob env st blob =
      (processItem env blob).map (fun rec => storePut st blob rec) := by
  unfold tryProcessBlob processItem
  cases hr : env.read_blob_content blob with
  | error e => simp [Except.map]
  | ok content =>
      cases hj : env.json_loads content with
      | error e => simp [hj, Except.map]
      | ok md =>
          cases hc : compute_embeddings_with_azure_openai env md with
          | error e => simp [hj, hc, Except.map]
          | ok v =>
              cases hw : env.upload_fault blob with
              | none => simp [hj, hc, hw, Except.map, upload_embeddings]
              | some e => simp [hj, hc, hw, Except.map, upload_embeddings]

/-! ## Batch loop lemmas -/

/-- Whether the per-item pipeline for a blob succeeds. -/
def itemOk (env : Env) (blob : String) : Bool :=
  match processItem env blob with
  | Except.ok _ => true
  | Except.error _ => false

/-- The failure entry a blob contributes, when its pipeline raises. -/
def itemErr (env : Env) (blob : String) : Option (String × String) :=
  match processItem env blob with
  | Except.error e => some (blob, e)
  | Except.ok _ => none

theorem processBlobs_fst_eq (env : Env) (names : List String) (st : Store) :
    (processBlobs env names st).1 =
      { processed_files := names.filter (itemOk env)
        failed_files := names.filterMap (itemErr env) } := by
  induction names generalizing st with
  | nil => simp [processBlobs]
  | cons blob ns ih =>
      cases hi : processItem env blob with
      | ok rec =>
          simp [processBlobs, tryProcessBlob_eq, hi, Except.map, ih,
                List.filter_cons, List.filterMap_cons, itemOk, itemErr]
      | error e =>
          simp [processBlobs, tryProcessBlob_eq, hi, Except.map, ih,
                List.filter_cons, List.filterMap_cons, itemOk, itemErr]

theorem processBlobs_snd_preserve (env : Env) (names : List String)
    (n : String) (rec : EmbRecord) (h : processItem env n = Except.ok rec) :
    ∀ st : Store, storeGet st n = some rec →
      storeGet (processBlobs env names st).2 n = some rec := by
  induction names with
  | nil => intro st hst; simpa [processBlobs] using hst
  | cons blob ns ih =>
      intro st hst
      cases hi : processItem env blob with
      | ok r =>
          simp only [processBlobs, tryProcessBlob_eq, hi, Except.map]
          apply ih
          by_cases hbn : n = blob
          · subst hbn
            rw [h] at hi
            cases hi
            exact storeGet_storePut_self st n rec
          · rw [storeGet_storePut_ne st n blob r hbn]
            exact hst
      | error e =>
          simp only [processBlobs, tryProcessBlob_eq, hi, Except.map]
          exact ih st hst

theorem processBlobs_storeGet_success (env : Env) (names : List String)
    (st : Store) (n : String) (rec : EmbRecord)
    (hmem : n ∈ names) (h : processItem env n = Except.ok rec) :
    storeGet (processBlobs env names st).2 n = some rec := by
  induction names generalizing st with
  | nil => cases hmem
  | cons blob ns ih =>
      cases hi : processItem env blob with
      | ok r =>
          simp only [processBlobs, tryProcessBlob_eq, hi, Except.map]
          by_cases hbn : n = blob
          · subst hbn
            rw [h] at hi
            cases hi
            exact processBlobs_snd_preserve env ns n rec h _
              (storeGet_storePut_self st n rec)
          · rcases List.mem_cons.mp hmem with heq | hns
            · exact absurd heq hbn
            · exact ih _ hns
      | error e =>
          simp only [processBlobs, tryProcessBlob_eq, hi, Except.map]
          rcases List.mem_cons.mp hmem with heq | hns
          · subst heq; rw [h] at hi; cases hi
          · exact ih st hns

theorem processBlobs_snd_fixpoint (env : Env) (names : List String) (t : Store)
    (hall : ∀ n ∈ names, ∀ rec, processItem env n = Except.ok rec →
      storeGet t n = some rec) :
    (processBlobs env names t).2 = t := by
  induction names with
  | nil => simp [processBlobs]
  | cons blob ns ih =>
      cases hi : processItem env blob with
      | ok r =>
          have hput : storePut t blob r = t :=
            storePut_of_storeGet t blob r
              (hall blob (List.mem_cons_self _ _) r hi)
          simp only [processBlobs, tryProcessBlob_eq, hi, Except.map, hput]
          exact ih (fun n hn rec hr => hall n (List.mem_cons_of_mem _ hn) rec hr)
      | error e =>
          simp only [processBlobs, tryProcessBlob_eq, hi, Except.map]
          exact ih (fun n hn rec hr => hall n (List.mem_cons_of_mem _ hn) rec hr)

theorem processBlobs_length (env : Env) (names : List String) (st : Store) :
    (processBlobs env names st).1.processed_files.length +
      (processBlobs env names st).1.failed_files.length = names.length := by
  induction names generalizing st with
  | nil => simp [processBlobs]
  | cons blob ns ih =>
      cases hi : processItem env blob with
      | ok r =>
          have := ih (storePut st blob r)
          simp only [processBlobs, tryProcessBlob_eq, hi, Except.map,
                     List.length_cons]
          omega
      | error e =>
          have := ih st
          simp only [processBlobs, tryProcessBlob_eq, hi, Except.map,
                     List.length_cons]
          omega

/-! ## Container ensure lemmas -/

theorem ensure_ok_present (env : Env) (st st' : PState)
    (h : ensure_embeddings_container env st = Except.ok st') :
    st'.embContainerPresent = true ∧ st'.embStore = st.embStore := by
  unfold ensure_embeddings_container at h
  by_cases hp : st.embContainerPresent
  · simp [hp] at h
    subst h
    exact ⟨hp, rfl⟩
  · simp [hp] at h
    cases hc : env.create_container with
    | ok u => rw [hc] at h; cases h; simp
    | error e => rw [hc] at h; cases h

theorem ensure_of_present (env : Env) (st : PState)
    (h : st.embContainerPresent = true) :
    ensure_embeddings_container env st = Except.ok st := by
  simp [ensure_embeddings_container, h]

/-! ## Concrete test fixtures -/

/-- The metadata record of the end-to-end scenario in the spec. -/
def mdExample : Metadata :=
  [("file_path", JValue.str "/docs/a.txt"), ("title", JValue.str "Report")]

/-- The embedding record the scenario writes for key u1/a.json. -/
def recA : EmbRecord :=
  { file_name := "u1/a.json", embeddings := [1, 2],
    file_path := JValue.str "/docs/a.txt" }

/-- A concrete environment: user u1 owns one parsable blob and one blob with
unparsable content; the remote embedding call answers with one vector. -/
def envW : Env :=
  { list_blobs := fun p =>
      if p = "u1/" then Except.ok ["u1/a.json", "u1/bad.json"] else Except.ok []
    read_blob_content := fun n =>
      if n = "u1/a.json" then Except.ok "contentA"
      else if n = "u1/bad.json" then Except.ok "notjson"
      else Except.error "BlobNotFound: The specified blob does not exist."
    json_loads := fun c =>
      if c = "contentA" then Except.ok mdExample
      else Except.error "JSONDecodeError: Expecting value"
    embedData := fun _ => Except.ok [[1, 2]]
    create_container := Except.ok ()
    upload_fault := fun _ => none }

/-- Same world, but the container-create call raises a connection error. -/
def envNoCreate : Env :=
  { envW with create_container :=
      Except.error "ConnectionError: cannot create container" }

/-- Same world, but another process created the embeddings container between
the existence check and the create call, so the create call raises. -/
def envRace : Env :=
  { envW with create_container :=
      Except.error "ResourceExistsError: The specified container already exists." }

/-- Initial state: embeddings container absent and empty. -/
def stAbsent : PState := { embContainerPresent := false, embStore := [] }

/-- State after the container has been created, still empty. -/
def stReady : PState := { embContainerPresent := true, embStore := [] }

/-! ## Claims -/

/-- C1: in batch processing, once the container-ensure step and the listing
succeed, the run returns a summary and never raises: every listed blob whose
pipeline raises contributes exactly its failure entry with its key and error
message to failed_files while the other items are still processed, and in
particular a blob with unparsable content lands in failed_files with the
parse error message. -/
theorem batch_catches_item_failures (env : Env) (user_id : String)
    (st st' : PState) (names : List String)
    (hens : ensure_embeddings_container env st = Except.ok st')
    (hlist : fetch_user_blobs env user_id = Except.ok names) :
    process_user_metadata_to_embeddings env user_id st =
      Except.ok
        ({ processed_files := names.filter (itemOk env)
           failed_files := names.filterMap (itemErr env) },
         { st' with embStore := (processBlobs env names st'.embStore).2 }) ∧
    (∀ blob ∈ names, ∀ e, processItem env blob = Except.error e →
       (blob, e) ∈ names.filterMap (itemErr env)) ∧
    (∀ blob content e, blob ∈ names →
       env.read_blob_content blob = Except.ok content →
       env.json_loads content = Except.error e →
       (blob, e) ∈ names.filterMap (itemErr env)) := by
  refine ⟨?_, ?_, ?_⟩
  · simp only [process_user_metadata_to_embeddings, hens, hlist, ok_bind]
    rw [processBlobs_fst_eq]
  · intro blob hmem e herr
    exact List.mem_filterMap.mpr ⟨blob, hmem, by simp [itemErr, herr]⟩
  · intro blob content e hmem hread hparse
    have herr : processItem env blob = Except.error e := by
      simp [processItem, hread, hparse]
    exact List.mem_filterMap.mpr ⟨blob, hmem, by simp [itemErr, herr]⟩

/-- Witness for C1: in the concrete world, the unparsable blob u1/bad.json is
reported in the failed list with the parse error message. -/
theorem batch_catches_item_failures_witness :
    ("u1/bad.json", "JSONDecodeError: Expecting value") ∈
      (["u1/a.json", "u1/bad.json"].filterMap (itemErr envW)) :=
  (batch_catches_item_failures envW "u1" stAbsent stReady
      ["u1/a.json", "u1/bad.json"] rfl rfl).2.2
    "u1/bad.json" "notjson" "JSONDecodeError: Expecting value"
    (by decide) rfl rfl

/-- C2: the text sent to the embedding call is the single-space join of the
string representations of the metadata values in insertion order, the call
returns the first element of the remote response data, and on the spec
scenario record the text is exactly the string /docs/a.txt Report. -/
theorem embed_text_is_joined_values (env : Env) (metadata : Metadata) (v : Vec) :
    flatten_metadata_text metadata =
      String.intercalate " " (metadata.map fun kv => pyStr kv.2) ∧
    (compute_embeddings_with_azure_openai env metadata = Except.ok v ↔
       ∃ rest, env.embedData (flatten_metadata_text metadata) =
         Except.ok (v :: rest)) ∧
    flatten_metadata_text mdExample = "/docs/a.txt Report" := by
  refine ⟨rfl, ?_, by decide⟩
  unfold compute_embeddings_with_azure_openai flatten_metadata_text
  cases hd : env.embedData
      (String.intercalate " " (metadata.map fun kv => pyStr kv.2)) with
  | error e => simp [hd]
  | ok data =>
      cases data with
      | nil => simp [hd]
      | cons w rest =>
          simp only [hd, ok_bind]
          constructor
          · intro h
            cases h
            exact ⟨rest, rfl⟩
          · rintro ⟨rest', h⟩
            cases h
            rfl

/-- Witness for C2: on the scenario record the concrete call returns the
single response vector. -/
theorem embed_text_is_joined_values_witness :
    compute_embeddings_with_azure_openai envW mdExample = Except.ok [1, 2] :=
  (embed_text_is_joined_values envW mdExample [1, 2]).2.1.mpr ⟨[], rfl⟩

/-- C3: a metadata blob whose read, parse, embed and upload all succeed ends
with an embedding record stored at the same key, whose file_name is that key,
whose embeddings are the computed vector, and whose file_path is the source
file_path field, or the string unknown_path when the field is absent. -/
theorem success_writes_record_at_key (env : Env) (names : List String)
    (st : Store) (blob content : String) (metadata : Metadata) (v : Vec)
    (hmem : blob ∈ names)
    (hread : env.read_blob_content blob = Except.ok content)
    (hparse : env.json_loads content = Except.ok metadata)
    (hembed : compute_embeddings_with_azure_openai env metadata = Except.ok v)
    (hwrite : env.upload_fault blob = none) :
    processItem env blob =
      Except.ok
        { file_name := blob, embeddings := v
          file_path := dict_get metadata "file_path" (JValue.str "unknown_path") } ∧
    storeGet (processBlobs env names st).2 blob =
      some
        { file_name := blob, embeddings := v
          file_path := dict_get metadata "file_path" (JValue.str "unknown_path") } ∧
    (∀ fp, List.lookup "file_path" metadata = some fp →
       dict_get metadata "file_path" (JValue.str "unknown_path") = fp) ∧
    (List.lookup "file_path" metadata = none →
       dict_get metadata "file_path" (JValue.str "unknown_path") =
         JValue.str "unknown_path") := by
  have hitem : processItem env blob =
      Except.ok
        { file_name := blob, embeddings := v
          file_path := dict_get metadata "file_path" (JValue.str "unknown_path") } := by
    simp [processItem, hread, hparse, hembed, hwrite]
  refine ⟨hitem, processBlobs_storeGet_success env names st blob _ hmem hitem,
    ?_, ?_⟩
  · intro fp hfp
    simp [dict_get, hfp]
  · intro hfp
    simp [dict_get, hfp]

/-- Witness for C3: in the concrete world, the record for u1/a.json is stored
at key u1/a.json with the scenario file path. -/
theorem success_writes_record_at_key_witness :
    storeGet (processBlobs envW ["u1/a.json", "u1/bad.json"] []).2 "u1/a.json" =
      some
        { file_name := "u1/a.json", embeddings := [1, 2]
          file_path := dict_get mdExample "file_path" (JValue.str "unknown_path") } :=
  (success_writes_record_at_key envW ["u1/a.json", "u1/bad.json"] []
      "u1/a.json" "contentA" mdExample [1, 2]
      (by decide) rfl rfl rfl rfl).2.1

/-- C4: contrary to the claim, every request to POST /process_single_embedding
raises a TypeError before any body parsing, because the registered view
function requires the positional parameters user_id and blob_name while the
URL rule supplies no view arguments; Flask answers 500 for every request
regardless of the JSON body, so the 400 check and the outcome-to-status
mapping described by the claim never run. -/
theorem single_endpoint_typeerror (env : Env)
    (reqBody : List (String × String)) (st : PState) :
    dispatch_process_single_embedding env reqBody st =
      Except.error
        "TypeError: process_single_metadata_to_embedding missing 2 required positional arguments" ∧
    flaskStatus (dispatch_process_single_embedding env reqBody st) = 500 ∧
    single_route_view_args = [] :=
  ⟨rfl, rfl, rfl⟩

/-- C5 counterexample: a failure while ensuring the target container exists is
raised to the caller instead of being returned as a structured error outcome,
because the ensure step sits outside the try block of the single-item path. -/
theorem single_raises_on_ensure_fault :
    process_single_metadata_to_embedding envNoCreate "u1" "f.json" stAbsent =
      Except.error "ConnectionError: cannot create container" := rfl

/-- C5 amended: once the container-ensure step succeeds, single-item
processing returns (never raises) a structured outcome carrying the
normalized key: a success outcome when the read-parse-embed-write sequence
succeeds, and an error outcome with the error description when any step of
that sequence raises. -/
theorem single_outcome_after_ensure (env : Env) (user_id blob_name : String)
    (st st' : PState)
    (hens : ensure_embeddings_container env st = Except.ok st') :
    process_single_metadata_to_embedding env user_id blob_name st =
      (match tryProcessBlob env st'.embStore (normalizeKey user_id blob_name) with
       | Except.ok store' =>
           Except.ok (SingleOutcome.success (normalizeKey user_id blob_name),
                      { st' with embStore := store' })
       | Except.error e =>
           Except.ok (SingleOutcome.error (normalizeKey user_id blob_name) e,
                      st')) ∧
    (∀ out st'',
       process_single_metadata_to_embedding env user_id blob_name st =
         Except.ok (out, st'') →
       outcomeKey out = normalizeKey user_id blob_name) := by
  have hmain : process_single_metadata_to_embedding env user_id blob_name st =
      (match tryProcessBlob env st'.embStore (normalizeKey user_id blob_name) with
       | Except.ok store' =>
           Except.ok (SingleOutcome.success (normalizeKey user_id blob_name),
                      { st' with embStore := store' })
       | Except.error e =>
           Except.ok (SingleOutcome.error (normalizeKey user_id blob_name) e,
                      st')) := by
    simp only [process_single_metadata_to_embedding, hens, ok_bind]
  refine ⟨hmain, ?_⟩
  intro out st'' hout
  rw [hmain] at hout
  cases htry : tryProcessBlob env st'.embStore (normalizeKey user_id blob_name) with
  | ok store' =>
      rw [htry] at hout
      cases hout
      rfl
  | error e =>
      rw [htry] at hout
      cases hout
      rfl

/-- Witness for C5 amended: with the container present, the concrete
single-item run returns a success outcome at the normalized key together with
the written record. -/
theorem single_outcome_after_ensure_witness :
    process_single_metadata_to_embedding envW "u1" "a.json" stReady =
      (match tryProcessBlob envW stReady.embStore (normalizeKey "u1" "a.json") with
       | Except.ok store' =>
           Except.ok (SingleOutcome.success (normalizeKey "u1" "a.json"),
                      { stReady with embStore := store' })
       | Except.error e =>
           Except.ok (SingleOutcome.error (normalizeKey "u1" "a.json") e,
                      stReady)) :=
  (single_outcome_after_ensure envW "u1" "a.json" stReady stReady rfl).1

/-- C6: the batch endpoint answers 400 with the fixed message and leaves the
world untouched (no storage or embedding calls) when user_id is absent or
empty, answers 200 with the message and summary when the orchestrator
returns, and answers 500 with the error text when the orchestrator raises. -/
theorem batch_endpoint_statuses (env env' : Env)
    (data : List (String × String)) (st : PState) :
    ((List.lookup "user_id" data = none ∨ List.lookup "user_id" data = some "") →
       process_embeddings env data st =
         (HttpReply.badRequest "Missing user_id in request", st) ∧
       process_embeddings env data st = process_embeddings env' data st ∧
       statusOf (process_embeddings env data st).1 = 400) ∧
    (∀ user_id result st',
       List.lookup "user_id" data = some user_id → user_id ≠ "" →
       process_user_metadata_to_embeddings env user_id st =
         Except.ok (result, st') →
       process_embeddings env data st =
         (HttpReply.okReply "Processing completed" result, st') ∧
       statusOf (process_embeddings env data st).1 = 200) ∧
    (∀ user_id e,
       List.lookup "user_id" data = some user_id → user_id ≠ "" →
       process_user_metadata_to_embeddings env user_id st = Except.error e →
       process_embeddings env data st = (HttpReply.serverError e, st) ∧
       statusOf (process_embeddings env data st).1 = 500) := by
  refine ⟨?_, ?_, ?_⟩
  · rintro (h | h)
    · simp [process_embeddings, h, statusOf]
    · simp [process_embeddings, h, statusOf]
  · intro user_id result st' hu hne hb
    simp [process_embeddings, hu, hne, hb, statusOf]
  · intro user_id e hu hne hb
    simp [process_embeddings, hu, hne, hb, statusOf]

/-- Witness for C6: a request without user_id gets the fixed 400 reply and
the state is unchanged. -/
theorem batch_endpoint_statuses_witness :
    process_embeddings envW [] stAbsent =
      (HttpReply.badRequest "Missing user_id in request", stAbsent) ∧
    process_embeddings envW [] stAbsent = process_embeddings envNoCreate [] stAbsent ∧
    statusOf (process_embeddings envW [] stAbsent).1 = 400 :=
  (batch_endpoint_statuses envW envNoCreate [] stAbsent).1 (Or.inl rfl)

/-- C7: the single-item path operates on the normalized key, which prefixes
blob_name with the user namespace exactly when it is not already so prefixed:
an unprefixed name such as f.json for user u1 becomes u1/f.json, an already
prefixed name is used unchanged, and the whole run (the shared pipeline, the
written record and the returned outcome) is driven by that key. -/
theorem single_normalizes_key (env : Env) (user_id blob_name : String)
    (st st' : PState)
    (hens : ensure_embeddings_container env st = Except.ok st') :
    (py_startswith blob_name (user_id ++ "/") = false →
       normalizeKey user_id blob_name = user_id ++ "/" ++ blob_name) ∧
    (py_startswith blob_name (user_id ++ "/") = true →
       normalizeKey user_id blob_name = blob_name) ∧
    normalizeKey "u1" "f.json" = "u1/f.json" ∧
    normalizeKey "u1" "u1/f.json" = "u1/f.json" ∧
    process_single_metadata_to_embedding env user_id blob_name st =
      (match tryProcessBlob env st'.embStore (normalizeKey user_id blob_name) with
       | Except.ok store' =>
           Except.ok (SingleOutcome.success (normalizeKey user_id blob_name),
                      { st' with embStore := store' })
       | Except.error e =>
           Except.ok (SingleOutcome.error (normalizeKey user_id blob_name) e,
                      st')) := by
  refine ⟨?_, ?_, by decide, by decide, ?_⟩
  · intro h
    simp [normalizeKey, h]
  · intro h
    simp [normalizeKey, h]
  · simp only [process_single_metadata_to_embedding, hens, ok_bind]

/-- Witness for C7: for user u1 and unprefixed name f.json, the concrete run
operates on key u1/f.json (here the key does not exist, so the outcome is the
error outcome at the normalized key). -/
theorem single_normalizes_key_witness :
    normalizeKey "u1" "f.json" = "u1/f.json" :=
  (single_normalizes_key envW "u1" "f.json" stReady stReady rfl).2.2.1

/-- C8: batch processing is idempotent: a second run over the same metadata
returns the same processed and failed sequences and leaves the embeddings
store exactly as the first run did, each record being overwritten in place at
its key with no duplication. -/
theorem batch_idempotent (env : Env) (user_id : String) (st st' : PState)
    (r : BatchResult)
    (h : process_user_metadata_to_embeddings env user_id st = Except.ok (r, st')) :
    process_user_metadata_to_embeddings env user_id st' = Except.ok (r, st') := by
  unfold process_user_metadata_to_embeddings at h ⊢
  cases hens : ensure_embeddings_container env st with
  | error e => rw [hens] at h; simp at h
  | ok st₁ =>
      rw [hens] at h
      simp only [ok_bind] at h
      cases hlist : fetch_user_blobs env user_id with
      | error e => rw [hlist] at h; simp at h
      | ok names =>
          rw [hlist] at h
          simp only [ok_bind] at h
          have hAB :
              ((processBlobs env names st₁.embStore).1,
               ({ st₁ with
                   embStore := (processBlobs env names st₁.embStore).2 } : PState)) =
                (r, st') := Except.ok.inj h
          have hA : (processBlobs env names st₁.embStore).1 = r :=
            congrArg Prod.fst hAB
          have hB : ({ st₁ with
              embStore := (processBlobs env names st₁.embStore).2 } : PState) = st' :=
            congrArg Prod.snd hAB
          have hpres : st'.embContainerPresent = true := by
            rw [← hB]
            exact (ensure_ok_present env st st₁ hens).1
          have hstore : st'.embStore = (processBlobs env names st₁.embStore).2 := by
            rw [← hB]
          have hall : ∀ n ∈ names, ∀ rec,
              processItem env n = Except.ok rec →
              storeGet (processBlobs env names st₁.embStore).2 n = some rec :=
            fun n hn rec hr =>
              processBlobs_storeGet_success env names st₁.embStore n rec hn hr
          have h1 :
              (processBlobs env names
                (processBlobs env names st₁.embStore).2).1 = r := by
            rw [processBlobs_fst_eq]
            rw [processBlobs_fst_eq] at hA
            exact hA
          rw [ensure_of_present env st' hpres]
          simp only [ok_bind]
          rw [hstore, processBlobs_snd_fixpoint env names _ hall, h1, ← hstore]

/-- Witness for C8: rerunning the concrete batch from the state the first run
produced returns the same summary and the same store. -/
theorem batch_idempotent_witness :
    process_user_metadata_to_embeddings envW "u1"
        { embContainerPresent := true, embStore := [("u1/a.json", recA)] } =
      Except.ok
        ({ processed_files := ["u1/a.json"]
           failed_files := [("u1/bad.json", "JSONDecodeError: Expecting value")] },
         { embContainerPresent := true, embStore := [("u1/a.json", recA)] }) :=
  batch_idempotent envW "u1" stAbsent
    { embContainerPresent := true, embStore := [("u1/a.json", recA)] }
    { processed_files := ["u1/a.json"]
      failed_files := [("u1/bad.json", "JSONDecodeError: Expecting value")] }
    rfl

/-- C9 counterexample: when another process creates the embeddings container
between the existence check and the create call, the create call raises and
the whole batch run aborts, so the benign race is treated as fatal. -/
theorem create_race_aborts_batch :
    process_user_metadata_to_embeddings envRace "u1" stAbsent =
      Except.error "ResourceExistsError: The specified container already exists." :=
  rfl

/-- C9 amended: in both batch and single-item processing, before any write
the target container is ensured by an existence check followed by a create
call when absent; but if the create call raises (as when a concurrent
process created the container between the check and the create), the error
propagates and the run aborts instead of being treated as benign. -/
theorem ensure_check_then_create (env : Env) (user_id blob_name : String)
    (st : PState) (e : String) :
    (st.embContainerPresent = true →
       ensure_embeddings_container env st = Except.ok st) ∧
    (st.embContainerPresent = false → env.create_container = Except.ok () →
       ensure_embeddings_container env st =
         Except.ok { st with embContainerPresent := true }) ∧
    (st.embContainerPresent = false → env.create_container = Except.error e →
       process_user_metadata_to_embeddings env user_id st = Except.error e ∧
       process_single_metadata_to_embedding env user_id blob_name st =
         Except.error e) := by
  refine ⟨fun h => ensure_of_present env st h, ?_, ?_⟩
  · intro hp hc
    simp [ensure_embeddings_container, hp, hc]
  · intro hp hc
    have hens : ensure_embeddings_container env st = Except.error e := by
      simp [ensure_embeddings_container, hp, hc]
    constructor
    · simp only [process_user_metadata_to_embeddings, hens, error_bind]
    · simp only [process_single_metadata_to_embedding, hens, error_bind]

/-- Witness for C9 amended: from an absent container, a successful create
yields the created state, while a raising create aborts the concrete
single-item run with the create error. -/
theorem ensure_check_then_create_witness :
    ensure_embeddings_container envW stAbsent = Except.ok stReady ∧
    process_single_metadata_to_embedding envRace "u1" "f.json" stAbsent =
      Except.error "ResourceExistsError: The specified container already exists." :=
  ⟨(ensure_check_then_create envW "u1" "f.json" stAbsent "").2.1 rfl rfl,
   ((ensure_check_then_create envRace "u1" "f.json" stAbsent
        "ResourceExistsError: The specified container already exists.").2.2
      rfl rfl).2⟩

/-- The keys of the failure entries are the listed blobs whose pipeline
raises, in listing order. -/
theorem filterMap_itemErr_keys (env : Env) (names : List String) :
    (names.filterMap (itemErr env)).map Prod.fst =
      names.filter (fun n => ! itemOk env n) := by
  induction names with
  | nil => rfl
  | cons blob ns ih =>
      cases hi : processItem env blob with
      | ok r =>
          simp [List.filterMap_cons, List.filter_cons, itemErr, itemOk, hi, ih]
      | error e =>
          simp [List.filterMap_cons, List.filter_cons, itemErr, itemOk, hi, ih]

/-- C10: in a batch run, every listed blob contributes to exactly one of the
two result sequences: processed_files is the sublist of blobs whose pipeline
succeeds and the failure keys are the sublist of blobs whose pipeline raises,
both in listing order, and the lengths of the two sequences add up to the
number of listed blobs. -/
theorem batch_partitions_listing (env : Env) (names : List String) (st : Store) :
    (processBlobs env names st).1.processed_files = names.filter (itemOk env) ∧
    (processBlobs env names st).1.failed_files = names.filterMap (itemErr env) ∧
    ((processBlobs env names st).1.failed_files.map Prod.fst =
       names.filter (fun n => ! itemOk env n)) ∧
    (processBlobs env names st).1.processed_files.length +
      (processBlobs env names st).1.failed_files.length = names.length := by
  refine ⟨?_, ?_, ?_, processBlobs_length env names st⟩
  · rw [processBlobs_fst_eq]
  · rw [processBlobs_fst_eq]
  · rw [processBlobs_fst_eq]
    exact filterMap_itemErr_keys env names

end EmbProc
